import Mathlib

/-!
Verification of the meteorcapture repository against its specification.

The development shallowly embeds the parts of the code the claims are about:

* the `Image` class (infra/image.h and its implementation file): copy
  construction and the PGM stream serialisation `operator<<` / `operator>>`;
* `TimeUtil::epochToGmst` (util/timeutil.cpp);
* the Levenberg-Marquardt solver.  The solver implementation
  (math/levenbergmarquardtsolver.{h,cpp}) is not present in the source tree -
  only the `GeoCalFitter` subclass declaration (math/geocalfitter.h) is - so
  the solver is modelled from the specification, over exact rationals.

Machine floating point (`double`) is modelled by exact rationals `ℚ`;
the C++ integer types are modelled by `Nat`/`Int` with the type ranges stated
as hypotheses where a theorem needs them.
-/

/-! ## The Image data model -/

/-- Shallow embedding of the `Image` class.  The C++ member types are:
`width`, `height`, `field` and the four bounding box members are
`unsigned int`; `epochTimeUs` is `long long`; `rawImage` is
`std::vector<unsigned char>`; `annotatedImage` is `std::vector<unsigned int>`.
Values are modelled as unbounded `Nat`/`Int`; the C++ type ranges appear as
hypotheses where a theorem needs them. -/
structure Image where
  width : Nat
  height : Nat
  rawImage : List Nat
  annotatedImage : List Nat
  epochTimeUs : Int
  field : Nat
  coarse_localisation_success : Bool
  bb_xmin : Nat
  bb_xmax : Nat
  bb_ymin : Nat
  bb_ymax : Nat

/-- Default-constructed `Image` (`Image::Image()`): the constructor only sets
`coarse_localisation_success = false`; the scalar members are left
uninitialised in C++ and are modelled here by zero/empty representatives
(none of the theorems below depend on these representatives except through
fields the reader overwrites). -/
def Image.defaultImage : Image where
  width := 0
  height := 0
  rawImage := []
  annotatedImage := []
  epochTimeUs := 0
  field := 0
  coarse_localisation_success := false
  bb_xmin := 0
  bb_xmax := 0
  bb_ymin := 0
  bb_ymax := 0

/-- Copy constructor `Image::Image(const Image& copyme)`: the member
initialiser list copies `width`, `height`, `rawImage`, `annotatedImage`,
`epochTimeUs` and `field`, and the body sets
`coarse_localisation_success = false`.  The bounding box members are left
uninitialised by the C++ constructor; the model makes those indeterminate
values explicit arguments, so that the result provably does not depend on the
source's bounding box. -/
def Image.copy (copyme : Image) (junkXmin junkXmax junkYmin junkYmax : Nat) :
    Image where
  width := copyme.width
  height := copyme.height
  rawImage := copyme.rawImage
  annotatedImage := copyme.annotatedImage
  epochTimeUs := copyme.epochTimeUs
  field := copyme.field
  coarse_localisation_success := false
  bb_xmin := junkXmin
  bb_xmax := junkXmax
  bb_ymin := junkYmin
  bb_ymax := junkYmax

/-- C10: the `Image` copy constructor copies `width`, `height`, `rawImage`,
`annotatedImage`, `epochTimeUs` and `field`, always sets
`coarse_localisation_success` to `false` in the copy - even when the source
has it `true` - and does not copy the bounding box fields: the copy's
bounding box is whatever indeterminate values the uninitialised members hold,
independent of the source's bounding box. -/
theorem image_copy_drops_localisation (src : Image)
    (jxmin jxmax jymin jymax : Nat) :
    (src.copy jxmin jxmax jymin jymax).width = src.width ∧
    (src.copy jxmin jxmax jymin jymax).height = src.height ∧
    (src.copy jxmin jxmax jymin jymax).rawImage = src.rawImage ∧
    (src.copy jxmin jxmax jymin jymax).annotatedImage = src.annotatedImage ∧
    (src.copy jxmin jxmax jymin jymax).epochTimeUs = src.epochTimeUs ∧
    (src.copy jxmin jxmax jymin jymax).field = src.field ∧
    (src.copy jxmin jxmax jymin jymax).coarse_localisation_success = false ∧
    (src.copy jxmin jxmax jymin jymax).bb_xmin = jxmin ∧
    (src.copy jxmin jxmax jymin jymax).bb_xmax = jxmax ∧
    (src.copy jxmin jxmax jymin jymax).bb_ymin = jymin ∧
    (src.copy jxmin jxmax jymin jymax).bb_ymax = jymax :=
  ⟨rfl, rfl, rfl, rfl, rfl, rfl, rfl, rfl, rfl, rfl, rfl⟩

/-! ## TimeUtil: Greenwich Mean Sidereal Time -/

/-- `TimeUtil::epochToJd`: Julian day number for a Unix epoch time given in
microseconds after 1970-01-01T00:00:00Z.  The `double` arithmetic of the
source is modelled by exact rationals. -/
def epochToJd (epochTimeStamp_us : Int) : ℚ :=
  2440587.5 + (epochTimeStamp_us : ℚ) / 86400000000

/-- First normalisation loop of `TimeUtil::epochToGmst`:
`while (gmst < 0.0) gmst += 86400.0`. -/
def gmstShiftUp (g : ℚ) : ℚ :=
  if g < 0 then gmstShiftUp (g + 86400) else g
termination_by Int.toNat ⌈-g / 86400⌉
decreasing_by
  have hx : -(g + 86400) / 86400 = -g / 86400 - 1 := by ring
  rw [hx, Int.ceil_sub_one]
  have h1 : 0 < ⌈-g / 86400⌉ :=
    Int.ceil_pos.mpr (div_pos (by linarith) (by norm_num))
  omega

/-- Second normalisation loop of `TimeUtil::epochToGmst`:
`while (gmst > 86400.0) gmst -= 86400.0`. -/
def gmstShiftDown (g : ℚ) : ℚ :=
  if g > 86400 then gmstShiftDown (g - 86400) else g
termination_by Int.toNat ⌈g / 86400⌉
decreasing_by
  have hx : (g - 86400) / 86400 = g / 86400 - 1 := by ring
  rw [hx, Int.ceil_sub_one]
  have h1 : 1 < ⌈g / 86400⌉ := by
    have hq : (1 : ℚ) < g / 86400 := by
      rw [lt_div_iff₀ (by norm_num : (0:ℚ) < 86400)]
      linarith
    exact Int.lt_ceil.mpr (by push_cast; exact hq)
  omega

/-- `TimeUtil::epochToGmst`: Greenwich Mean Sidereal Time in decimal hours
for a Unix epoch time in microseconds.  Follows the source: Julian centuries
since J2000.0, the GMST polynomial in seconds, the two normalisation loops
into the range [0, 86400], then conversion to decimal days and hours. -/
def epochToGmst (epochTimeStamp_us : Int) : ℚ :=
  let t := (epochToJd epochTimeStamp_us - 2451545) / 36525
  let gmst := 67310.54841 + ((876600 * 60 * 60 : ℚ) + 8640184.812866) * t +
      (0.093104 * t * t) - (0.0000062 * t * t * t)
  let gmst2 := gmstShiftDown (gmstShiftUp gmst)
  let gmst_days := gmst2 / 86400
  let gmst_hours := gmst_days * 24
  gmst_hours

theorem gmstShiftUp_nonneg (g : ℚ) : 0 ≤ gmstShiftUp g := by
  induction g using gmstShiftUp.induct with
  | case1 g h ih =>
    rw [gmstShiftUp, if_pos h]
    exact ih
  | case2 g h =>
    rw [gmstShiftUp, if_neg h]
    linarith

theorem gmstShiftDown_bounds (g : ℚ) :
    0 ≤ g → 0 ≤ gmstShiftDown g ∧ gmstShiftDown g ≤ 86400 := by
  induction g using gmstShiftDown.induct with
  | case1 g h ih =>
    intro _
    rw [gmstShiftDown, if_pos h]
    exact ih (by linarith)
  | case2 g h =>
    intro hg
    rw [gmstShiftDown, if_neg h]
    exact ⟨hg, by linarith⟩

theorem gmstNormalised_range (g : ℚ) :
    0 ≤ gmstShiftDown (gmstShiftUp g) / 86400 * 24 ∧
    gmstShiftDown (gmstShiftUp g) / 86400 * 24 ≤ 24 := by
  obtain ⟨h1, h2⟩ := gmstShiftDown_bounds (gmstShiftUp g) (gmstShiftUp_nonneg g)
  constructor
  · positivity
  · rw [div_mul_eq_mul_div, div_le_iff₀ (by norm_num : (0:ℚ) < 86400)]
    linarith

/-- C9: for every epoch time input, `TimeUtil::epochToGmst` terminates (it is
a total function of the input) and returns a Greenwich Mean Sidereal Time in
the closed interval [0, 24] decimal hours, because the intermediate seconds
value is normalised into [0, 86400] by the two shift loops before conversion
to hours. -/
theorem epochToGmst_in_range (epochTimeStamp_us : Int) :
    0 ≤ epochToGmst epochTimeStamp_us ∧ epochToGmst epochTimeStamp_us ≤ 24 := by
  simp only [epochToGmst]
  exact gmstNormalised_range _

/-! ## The Levenberg-Marquardt solver

Modelled from the spec: the `LevenbergMarquardtSolver` implementation
(math/levenbergmarquardtsolver.h/.cpp) is not present in the source tree;
only the subclass declaration `GeoCalFitter` (math/geocalfitter.h) is.  The
definitions below follow sections 3, 4, 6 and 7 of the specification, with
`double` arithmetic modelled by exact rationals. -/

/-- Modelled from the spec: the `ResidualModel` capability contract of
section 4.2 - a concrete fitter supplies `getModel`, optionally an analytic
`getJacobian` (omission triggers the finite difference fallback), optionally
per parameter finite difference step sizes, and a post step constraint hook
that is the identity unless overridden. -/
structure ResidualModel (M N : Nat) where
  getModel : (Fin M → ℚ) → Fin N → ℚ
  getJacobian : Option ((Fin M → ℚ) → Matrix (Fin N) (Fin M) ℚ) := none
  finiteDifferencesStepSizePerParam : Option (Fin M → ℚ) := none
  postParameterUpdateCallback : (Fin M → ℚ) → Fin M → ℚ := id

/-- Computable matrix inverse over `ℚ`: zero for a singular matrix, otherwise
the adjugate formula.  Shown below to agree with Mathlib's `Inv.inv`. -/
def matInv {n : Nat} (A : Matrix (Fin n) (Fin n) ℚ) :
    Matrix (Fin n) (Fin n) ℚ :=
  if A.det = 0 then 0 else A.det⁻¹ • A.adjugate

theorem matInv_eq_inv {n : Nat} (A : Matrix (Fin n) (Fin n) ℚ) :
    matInv A = A⁻¹ := by
  rw [Matrix.inv_def, matInv]
  by_cases h : A.det = 0
  · simp [h]
  · simp [h, Ring.inverse_eq_inv]

/-- Modelled from the spec (section 3): the data covariance is stored either
as a full N x N matrix or, in diagonal mode, as the N-vector of variances
alone. -/
inductive CovarianceRep (N : Nat) where
  | diagonal (variance : Fin N → ℚ)
  | full (cov : Matrix (Fin N) (Fin N) ℚ)

/-- Modelled from the spec: the weight matrix W is the inverse covariance; in
diagonal mode the weighting is the elementwise reciprocal of the variance
vector - a general matrix inversion is never performed on the diagonal
representation. -/
def CovarianceRep.weight {N : Nat} :
    CovarianceRep N → Matrix (Fin N) (Fin N) ℚ
  | .diagonal v => Matrix.diagonal fun i => (v i)⁻¹
  | .full c => matInv c

/-- Modelled from the spec (section 6): the solver tuning knobs with their
defaults - finite difference step h (1e-2), exit tolerance (1e-32), max
damping (1e32), boost/shrink factor (10). -/
structure LMConfig where
  h : ℚ := 1 / 100
  exitTolerance : ℚ := 1 / 10 ^ 32
  maxDamping : ℚ := 10 ^ 32
  boostShrinkFactor : ℚ := 10

/-- Per parameter finite difference step sizes: the fitter's
`finiteDifferencesStepSizePerParam` override when present, else the uniform
default `h` (spec section 4.1). -/
def stepSizes {M N : Nat} (f : ResidualModel M N) (cfg : LMConfig) :
    Fin M → ℚ :=
  f.finiteDifferencesStepSizePerParam.getD fun _ => cfg.h

/-- Modelled from the spec (section 4.1): the central finite difference
Jacobian; column j is (model(P + h_j e_j) - model(P - h_j e_j)) / (2 h_j). -/
def fdJacobian {M N : Nat} (f : ResidualModel M N) (hs : Fin M → ℚ)
    (p : Fin M → ℚ) : Matrix (Fin N) (Fin M) ℚ :=
  Matrix.of fun i j =>
    (f.getModel (Function.update p j (p j + hs j)) i -
     f.getModel (Function.update p j (p j - hs j)) i) / (2 * hs j)

/-- The 2M parameter vectors at which the finite difference Jacobian build
evaluates the model: for each of the M parameters, the two perturbed
vectors. -/
def fdEvalPoints {M : Nat} (hs p : Fin M → ℚ) : List (Fin M → ℚ) :=
  (List.finRange M).flatMap fun j =>
    [Function.update p j (p j + hs j), Function.update p j (p j - hs j)]

/-- The Jacobian the solver uses: analytic when the fitter overrides
`getJacobian` (as `GeoCalFitter` declares), else the finite difference
fallback. -/
def jacobianOf {M N : Nat} (f : ResidualModel M N) (cfg : LMConfig)
    (p : Fin M → ℚ) : Matrix (Fin N) (Fin M) ℚ :=
  match f.getJacobian with
  | some g => g p
  | none => fdJacobian f (stepSizes f cfg) p

/-- Residuals R = Y - model(P) (spec section 4.1 step 1). -/
def residualsOf {M N : Nat} (f : ResidualModel M N) (Y : Fin N → ℚ)
    (p : Fin M → ℚ) : Fin N → ℚ :=
  fun i => Y i - f.getModel p i

/-- Chi squared RᵗWR for residuals R and weight matrix W (spec section 4.1
step 2). -/
def chiSquared {N : Nat} (W : Matrix (Fin N) (Fin N) ℚ) (r : Fin N → ℚ) : ℚ :=
  Matrix.dotProduct r (W.mulVec r)

/-- Chi squared of the fit at parameter vector p. -/
def chi2At {M N : Nat} (f : ResidualModel M N) (Y : Fin N → ℚ)
    (W : Matrix (Fin N) (Fin N) ℚ) (p : Fin M → ℚ) : ℚ :=
  chiSquared W (residualsOf f Y p)

/-- Modelled from the spec (section 4.1 step 4): the damped normal equation
matrix JᵗWJ + λ diag(JᵗWJ) - the Marquardt scaling uses the curvature
diagonal, not the identity. -/
def normalMatrix {M N : Nat} (J : Matrix (Fin N) (Fin M) ℚ)
    (W : Matrix (Fin N) (Fin N) ℚ) (lam : ℚ) : Matrix (Fin M) (Fin M) ℚ :=
  let JtWJ := Matrix.transpose J * W * J
  JtWJ + lam • Matrix.diagonal fun j => JtWJ j j

/-- Right hand side JᵗWR of the normal equations. -/
def normalRhs {M N : Nat} (J : Matrix (Fin N) (Fin M) ℚ)
    (W : Matrix (Fin N) (Fin N) ℚ) (r : Fin N → ℚ) : Fin M → ℚ :=
  (Matrix.transpose J * W).mulVec r

/-- Modelled from the spec: solving the damped normal equations for the step;
a singular system (the model's rendering of "singular or non positive
definite" in section 4.1) produces no step. -/
def solveNE {M : Nat} (A : Matrix (Fin M) (Fin M) ℚ) (b : Fin M → ℚ) :
    Option (Fin M → ℚ) :=
  if A.det = 0 then none else some ((matInv A).mulVec b)

/-- Mutable per-fit state of the solver: the parameter vector and the damping
factor (spec section 3). -/
structure LMState (M : Nat) where
  params : Fin M → ℚ
  lambda : ℚ

/-- Outcome of one iteration: continue the loop, stop because converged, or
stop because the damping exceeded the maximum ("stuck"). -/
inductive IterOutcome where
  | continueFit
  | converged
  | stuck
deriving DecidableEq

/-- Result of one iteration: the new state, whether the trial step was
accepted, whether the normal equation solve succeeded, and the loop
outcome. -/
structure IterResult (M : Nat) where
  state : LMState M
  accepted : Bool
  solveOk : Bool
  outcome : IterOutcome

/-- The trial parameter vector of one iteration: the current parameters plus
the damped Gauss-Newton step, passed through the post update callback; when
the normal equations cannot be solved there is no trial and the current
parameters stand. -/
def trialParams {M N : Nat} (f : ResidualModel M N) (cfg : LMConfig)
    (Y : Fin N → ℚ) (W : Matrix (Fin N) (Fin N) ℚ) (st : LMState M) :
    Fin M → ℚ :=
  let r := residualsOf f Y st.params
  let J := jacobianOf f cfg st.params
  match solveNE (normalMatrix J W st.lambda) (normalRhs J W r) with
  | none => st.params
  | some dp => f.postParameterUpdateCallback fun j => st.params j + dp j

/-- Modelled from the spec (section 4.1, per iteration algorithm): compute
residuals and chi squared at the current parameters, build the Jacobian, try
to solve the damped normal equations.  On solve failure the iteration is a
rejected step: parameters kept, damping boosted, loop continues unless the
damping now exceeds the maximum.  Otherwise the trial step is accepted
exactly when it strictly decreases chi squared (parameters committed, damping
shrunk) and rejected otherwise (trial discarded, damping boosted); the fit
converges when the relative chi squared change falls below the exit
tolerance, and is stuck when the damping exceeds the maximum. -/
def iteration {M N : Nat} (f : ResidualModel M N) (cfg : LMConfig)
    (Y : Fin N → ℚ) (W : Matrix (Fin N) (Fin N) ℚ) (st : LMState M) :
    IterResult M :=
  let r := residualsOf f Y st.params
  let chi2prev := chiSquared W r
  let J := jacobianOf f cfg st.params
  match solveNE (normalMatrix J W st.lambda) (normalRhs J W r) with
  | none =>
    let lam2 := st.lambda * cfg.boostShrinkFactor
    { state := { params := st.params, lambda := lam2 },
      accepted := false, solveOk := false,
      outcome := if cfg.maxDamping < lam2 then .stuck else .continueFit }
  | some dp =>
    let ptrial := f.postParameterUpdateCallback fun j => st.params j + dp j
    let chi2trial := chi2At f Y W ptrial
    if chi2trial < chi2prev then
      let lam2 := st.lambda / cfg.boostShrinkFactor
      { state := { params := ptrial, lambda := lam2 },
        accepted := true, solveOk := true,
        outcome :=
          if |chi2prev - chi2trial| / chi2prev < cfg.exitTolerance then
            .converged
          else if cfg.maxDamping < lam2 then .stuck else .continueFit }
    else
      let lam2 := st.lambda * cfg.boostShrinkFactor
      { state := { params := st.params, lambda := lam2 },
        accepted := false, solveOk := true,
        outcome := if cfg.maxDamping < lam2 then .stuck else .continueFit }

/-- Reason `fit` returned (spec section 4.1 contract): convergence, the
iteration budget was exhausted, or the damping exceeded the maximum. -/
inductive FitTermination where
  | converged
  | maxIterationsReached
  | dampingExceeded
deriving DecidableEq

/-- Modelled from the spec: `fit(maxIterations, verbose)` - run iterations,
each one (accepted or rejected) consuming one unit of the iteration budget,
until convergence, a damping stop, or budget exhaustion.  Returns the final
state, the termination reason, and the number of loop body runs. -/
def fitLoop {M N : Nat} (f : ResidualModel M N) (cfg : LMConfig)
    (Y : Fin N → ℚ) (W : Matrix (Fin N) (Fin N) ℚ) :
    Nat → LMState M → LMState M × FitTermination × Nat
  | 0, st => (st, .maxIterationsReached, 0)
  | k + 1, st =>
    let r := iteration f cfg Y W st
    match r.outcome with
    | .converged => (r.state, .converged, 1)
    | .stuck => (r.state, .dampingExceeded, 1)
    | .continueFit =>
      let rest := fitLoop f cfg Y W k r.state
      (rest.1, rest.2.1, rest.2.2 + 1)

/-- Configuration errors signalled at setup time (spec section 7). -/
inductive ConfigError where
  | nonPositiveDegreesOfFreedom
deriving DecidableEq

/-- A fully configured fit problem: model, data vector, covariance and
initial parameters (spec section 6 input contract). -/
structure LMProblem (M N : Nat) where
  model : ResidualModel M N
  data : Fin N → ℚ
  covariance : CovarianceRep N
  initialParams : Fin M → ℚ

/-- Modelled from the spec (section 7): configuration errors - here zero or
negative degrees of freedom, N ≤ M - fail fast at setup time, before any
iteration runs. -/
def mkSolver (M N : Nat) (pb : LMProblem M N) :
    Except ConfigError (LMProblem M N) :=
  if N ≤ M then .error .nonPositiveDegreesOfFreedom else .ok pb

/-- Degrees of freedom N - M (spec glossary). -/
def degreesOfFreedom (M N : Nat) : Int := (N : Int) - (M : Int)

/-- Modelled from the spec: reduced chi squared = chi squared / DOF. -/
def getReducedChi2 (M N : Nat) (chi2 : ℚ) : ℚ := chi2 / ((N : ℚ) - (M : ℚ))

/-- Modelled from the spec: the direct asymptotic parameter covariance
estimator reducedChi2 x (JᵗWJ)⁻¹ at the converged Jacobian. -/
def getParameterCovariance {M N : Nat} (f : ResidualModel M N)
    (cfg : LMConfig) (Y : Fin N → ℚ) (W : Matrix (Fin N) (Fin N) ℚ)
    (p : Fin M → ℚ) : Matrix (Fin M) (Fin M) ℚ :=
  let J := jacobianOf f cfg p
  getReducedChi2 M N (chi2At f Y W p) • matInv (Matrix.transpose J * W * J)

/-! ## Claims about the solver -/

/-- C1: in every solver iteration the damping factor is updated by exactly
the boost/shrink factor - a rejected step multiplies it (a strict increase),
an accepted step divides it (a strict decrease) - and whenever the iteration
lets the loop continue the damping does not exceed `maxDamping` (exceeding
`maxDamping` stops the fit as "stuck").  Hypotheses: the damping is positive
and at most `maxDamping` on entry, and the boost/shrink factor exceeds one
(its default is 10). -/
theorem lm_damping_update {M N : Nat} (f : ResidualModel M N)
    (cfg : LMConfig) (Y : Fin N → ℚ) (W : Matrix (Fin N) (Fin N) ℚ)
    (st : LMState M) (hlam : 0 < st.lambda)
    (hboost : 1 < cfg.boostShrinkFactor)
    (hmax : st.lambda ≤ cfg.maxDamping) :
    ((iteration f cfg Y W st).accepted = false →
      (iteration f cfg Y W st).state.lambda =
        st.lambda * cfg.boostShrinkFactor ∧
      st.lambda < (iteration f cfg Y W st).state.lambda) ∧
    ((iteration f cfg Y W st).accepted = true →
      (iteration f cfg Y W st).state.lambda =
        st.lambda / cfg.boostShrinkFactor ∧
      (iteration f cfg Y W st).state.lambda < st.lambda) ∧
    ((iteration f cfg Y W st).outcome = IterOutcome.continueFit →
      (iteration f cfg Y W st).state.lambda ≤ cfg.maxDamping) := by
  have hgrow : st.lambda < st.lambda * cfg.boostShrinkFactor :=
    (lt_mul_iff_one_lt_right hlam).mpr hboost
  have hshrink : st.lambda / cfg.boostShrinkFactor < st.lambda :=
    div_lt_self hlam hboost
  simp only [iteration]
  split
  · -- solve failed: rejected step
    refine ⟨fun _ => ⟨rfl, hgrow⟩, by simp, ?_⟩
    simp only []
    split
    · simp
    · next hle => intro _; simpa using le_of_not_lt hle
  · -- solve succeeded
    split
    · -- accepted
      refine ⟨by simp, fun _ => ⟨rfl, hshrink⟩, fun _ => le_of_lt (lt_of_lt_of_le hshrink hmax)⟩
    · -- rejected
      refine ⟨fun _ => ⟨rfl, hgrow⟩, by simp, ?_⟩
      simp only []
      split
      · simp
      · next hle => intro _; simpa using le_of_not_lt hle

/-- C2: `fit` terminates: the loop runs the iteration body at most
`maxIterations` times (a rejected step consumes a budget unit exactly like an
accepted one), the termination reason is always one of converged /
maxIterations reached / damping exceeded, and the budget is fully consumed
exactly when the reason is maxIterations reached. -/
theorem lm_fit_terminates {M N : Nat} (f : ResidualModel M N)
    (cfg : LMConfig) (Y : Fin N → ℚ) (W : Matrix (Fin N) (Fin N) ℚ)
    (maxIterations : Nat) (st : LMState M) :
    (fitLoop f cfg Y W maxIterations st).2.2 ≤ maxIterations ∧
    ((fitLoop f cfg Y W maxIterations st).2.1 = FitTermination.converged ∨
     (fitLoop f cfg Y W maxIterations st).2.1 =
       FitTermination.maxIterationsReached ∨
     (fitLoop f cfg Y W maxIterations st).2.1 =
       FitTermination.dampingExceeded) ∧
    ((fitLoop f cfg Y W maxIterations st).2.1 =
       FitTermination.maxIterationsReached →
     (fitLoop f cfg Y W maxIterations st).2.2 = maxIterations) := by
  induction maxIterations generalizing st with
  | zero => simp [fitLoop]
  | succ k ih =>
    simp only [fitLoop]
    cases h : (iteration f cfg Y W st).outcome
    · obtain ⟨h1, h2, h3⟩ := ih (iteration f cfg Y W st).state
      simp only []
      refine ⟨by omega, h2, fun hm => by rw [h3 hm]⟩
    · simp
    · simp

/-- C3: with a solvable normal equation system, the trial step is accepted
exactly when it strictly decreases chi squared; on acceptance the solver's
parameter vector becomes the trial vector, and on rejection the trial is
discarded and the parameter vector is unchanged. -/
theorem lm_accept_iff_chi2_decreases {M N : Nat} (f : ResidualModel M N)
    (cfg : LMConfig) (Y : Fin N → ℚ) (W : Matrix (Fin N) (Fin N) ℚ)
    (st : LMState M)
    (hdet : (normalMatrix (jacobianOf f cfg st.params) W st.lambda).det ≠ 0) :
    ((iteration f cfg Y W st).accepted = true ↔
      chi2At f Y W (trialParams f cfg Y W st) < chi2At f Y W st.params) ∧
    ((iteration f cfg Y W st).accepted = true →
      (iteration f cfg Y W st).state.params = trialParams f cfg Y W st) ∧
    ((iteration f cfg Y W st).accepted = false →
      (iteration f cfg Y W st).state.params = st.params) := by
  simp only [iteration, trialParams, solveNE, if_neg hdet, chi2At]
  split
  · next h => simp [h]
  · next h => simp [h]

/-- C4: when the damped normal equation matrix is singular, the iteration is
treated as a rejected step - parameters unchanged, damping boosted, no step
accepted - and no error is raised: the loop continues unless the boosted
damping now exceeds `maxDamping`, in which case the fit stops as "stuck". -/
theorem lm_singular_normal_matrix_rejects {M N : Nat}
    (f : ResidualModel M N) (cfg : LMConfig) (Y : Fin N → ℚ)
    (W : Matrix (Fin N) (Fin N) ℚ) (st : LMState M)
    (hdet : (normalMatrix (jacobianOf f cfg st.params) W st.lambda).det = 0) :
    (iteration f cfg Y W st).accepted = false ∧
    (iteration f cfg Y W st).solveOk = false ∧
    (iteration f cfg Y W st).state.params = st.params ∧
    (iteration f cfg Y W st).state.lambda =
      st.lambda * cfg.boostShrinkFactor ∧
    (iteration f cfg Y W st).outcome =
      (if cfg.maxDamping < st.lambda * cfg.boostShrinkFactor then
        IterOutcome.stuck else IterOutcome.continueFit) := by
  simp [iteration, solveNE, hdet]

/-- C5: a configuration with N ≤ M (non-positive degrees of freedom) is
rejected at setup, before any iteration can run, instead of proceeding into
undefined DOF / reduced chi squared; with N = M + 1 setup succeeds, the
degrees of freedom are exactly 1, and the reduced chi squared is the plain
chi squared divided by 1 - a well defined (finite, in the exact rational
model) value - so the covariance matrix
`getParameterCovariance` is likewise well defined. -/
theorem lm_dof_configuration (M N : Nat) (pb : LMProblem M N) (c : ℚ) :
    (N ≤ M → mkSolver M N pb = Except.error
      ConfigError.nonPositiveDegreesOfFreedom) ∧
    (N = M + 1 → mkSolver M N pb = Except.ok pb ∧
      degreesOfFreedom M N = 1 ∧ getReducedChi2 M N c = c) := by
  constructor
  · intro h
    simp [mkSolver, h]
  · rintro rfl
    refine ⟨by simp [mkSolver], by simp [degreesOfFreedom], ?_⟩
    have h1 : ((M + 1 : Nat) : ℚ) - (M : ℚ) = 1 := by push_cast; ring
    simp [getReducedChi2, h1]

theorem matInv_diagonal {n : Nat} (v : Fin n → ℚ) (hv : ∀ i, v i ≠ 0) :
    matInv (Matrix.diagonal v) = Matrix.diagonal fun i => (v i)⁻¹ := by
  rw [matInv_eq_inv]
  apply Matrix.inv_eq_right_inv
  rw [Matrix.diagonal_mul_diagonal]
  have : (fun i => v i * (v i)⁻¹) = fun _ : Fin n => (1 : ℚ) := by
    funext i
    exact mul_inv_cancel₀ (hv i)
  rw [this, Matrix.diagonal_one]

/-- C6: diagonal covariance mode stores only the variance vector and weights
by the elementwise reciprocal (first conjunct, which holds by definition -
no general matrix inversion is applied to the diagonal representation), and a
fit run with the equivalent full N x N diagonal covariance matrix produces
exactly the same weight matrix, hence the identical fitted parameters,
termination, and parameter covariance output (remaining conjuncts).
Hypothesis: the variances are nonzero, so that the full diagonal matrix is
invertible (the "equivalent" full form exists). -/
theorem lm_diagonal_full_covariance_equivalence {M N : Nat}
    (f : ResidualModel M N) (cfg : LMConfig) (Y : Fin N → ℚ)
    (v : Fin N → ℚ) (hv : ∀ i, v i ≠ 0) (maxIterations : Nat)
    (st : LMState M) (p : Fin M → ℚ) :
    (CovarianceRep.diagonal v).weight =
      Matrix.diagonal (fun i => (v i)⁻¹) ∧
    fitLoop f cfg Y ((CovarianceRep.full (Matrix.diagonal v)).weight)
        maxIterations st =
      fitLoop f cfg Y ((CovarianceRep.diagonal v).weight) maxIterations st ∧
    getParameterCovariance f cfg Y
        ((CovarianceRep.full (Matrix.diagonal v)).weight) p =
      getParameterCovariance f cfg Y ((CovarianceRep.diagonal v).weight) p := by
  have hW : (CovarianceRep.full (Matrix.diagonal v)).weight =
      (CovarianceRep.diagonal v).weight := by
    simp only [CovarianceRep.weight]
    exact matInv_diagonal v hv
  exact ⟨rfl, by rw [hW], by rw [hW]⟩

theorem fdEvalPoints_mem_add {M : Nat} (hs p : Fin M → ℚ) (j : Fin M) :
    Function.update p j (p j + hs j) ∈ fdEvalPoints hs p := by
  simp only [fdEvalPoints, List.mem_flatMap]
  exact ⟨j, List.mem_finRange j, by simp⟩

theorem fdEvalPoints_mem_sub {M : Nat} (hs p : Fin M → ℚ) (j : Fin M) :
    Function.update p j (p j - hs j) ∈ fdEvalPoints hs p := by
  simp only [fdEvalPoints, List.mem_flatMap]
  exact ⟨j, List.mem_finRange j, by simp⟩

/-- C7: a fitter that does not override `getJacobian` gets the central finite
difference Jacobian: column j is the symmetric difference quotient
(model(P + h_j e_j) - model(P - h_j e_j)) / (2 h_j) with the per parameter
step h_j; the Jacobian build touches the model only at the 2M perturbed
parameter vectors of `fdEvalPoints` (exactly 2M extra model evaluations:
two fitters whose models agree there get the same Jacobian); and a fitter
that does override `getJacobian` - as `GeoCalFitter` declares - has its
analytic Jacobian used instead. -/
theorem lm_jacobian_central_differences {M N : Nat} (f : ResidualModel M N)
    (cfg : LMConfig) (p : Fin M → ℚ) :
    (f.getJacobian = none →
      (∀ i j, jacobianOf f cfg p i j =
        (f.getModel (Function.update p j (p j + stepSizes f cfg j)) i -
         f.getModel (Function.update p j (p j - stepSizes f cfg j)) i) /
        (2 * stepSizes f cfg j)) ∧
      (fdEvalPoints (stepSizes f cfg) p).length = 2 * M ∧
      (∀ g : ResidualModel M N, g.getJacobian = none →
        stepSizes g cfg = stepSizes f cfg →
        (∀ q ∈ fdEvalPoints (stepSizes f cfg) p, g.getModel q = f.getModel q) →
        jacobianOf g cfg p = jacobianOf f cfg p)) ∧
    (∀ gj, f.getJacobian = some gj → jacobianOf f cfg p = gj p) := by
  constructor
  · intro hnone
    refine ⟨?_, ?_, ?_⟩
    · intro i j
      simp [jacobianOf, hnone, fdJacobian]
    · simp only [fdEvalPoints, List.length_flatMap]
      simp [Function.comp_def, List.map_const', List.sum_replicate,
        smul_eq_mul, mul_comm]
    · intro g hg hstep hagree
      simp only [jacobianOf, hnone, hg, hstep]
      ext i j
      simp only [fdJacobian, Matrix.of_apply]
      rw [hagree _ (fdEvalPoints_mem_add (stepSizes f cfg) p j),
          hagree _ (fdEvalPoints_mem_sub (stepSizes f cfg) p j)]
  · intro gj hgj
    simp [jacobianOf, hgj]

/-! ## Concrete instances exercising the solver model -/

/-- A linear one parameter fitter with two data points, model_i = (i+1) p,
supplying its analytic Jacobian. -/
def testModelLinear : ResidualModel 1 2 where
  getModel := fun p i => ((i : Nat) + 1 : ℚ) * p 0
  getJacobian := some fun _ => Matrix.of fun i _ => ((i : Nat) + 1 : ℚ)

/-- A constant one parameter fitter with two data points: its finite
difference Jacobian is identically zero, so the normal equations are
singular. -/
def testModelConst : ResidualModel 1 2 where
  getModel := fun _ _ => 1

/-- Data vector Y = (1, 2). -/
def testY : Fin 2 → ℚ := fun i => ((i : Nat) + 1 : ℚ)

/-- Unit weight matrix. -/
def testW : Matrix (Fin 2) (Fin 2) ℚ := 1

/-- Initial state: parameters at zero, damping 1. -/
def testState : LMState 1 where
  params := fun _ => 0
  lambda := 1

/-- Default solver configuration. -/
def testCfg : LMConfig := {}

/-- Unit variance vector. -/
def testVariance : Fin 2 → ℚ := fun _ => 1

/-- Witness for C1 at a concrete fitter, weight and state. -/
theorem lm_damping_update_witness :
    ((0 : ℚ) < testState.lambda ∧ 1 < testCfg.boostShrinkFactor ∧
      testState.lambda ≤ testCfg.maxDamping) ∧
    ((iteration testModelLinear testCfg testY testW testState).accepted =
        false →
      (iteration testModelLinear testCfg testY testW testState).state.lambda =
        testState.lambda * testCfg.boostShrinkFactor ∧
      testState.lambda <
        (iteration testModelLinear testCfg testY testW
          testState).state.lambda) := by
  refine ⟨⟨by norm_num [testState], by norm_num [testCfg],
    by norm_num [testState, testCfg]⟩, ?_⟩
  exact (lm_damping_update testModelLinear testCfg testY testW testState
    (by norm_num [testState]) (by norm_num [testCfg])
    (by norm_num [testState, testCfg])).1

/-- Witness for C3: at the linear test fitter the normal matrix is
invertible, so the acceptance test is exactly the chi squared comparison. -/
theorem lm_accept_iff_chi2_decreases_witness :
    (normalMatrix (jacobianOf testModelLinear testCfg testState.params) testW
        testState.lambda).det ≠ 0 ∧
    ((iteration testModelLinear testCfg testY testW testState).accepted =
        true ↔
      chi2At testModelLinear testY testW
          (trialParams testModelLinear testCfg testY testW testState) <
        chi2At testModelLinear testY testW testState.params) := by
  have hdet : (normalMatrix (jacobianOf testModelLinear testCfg
      testState.params) testW testState.lambda).det ≠ 0 := by
    norm_num [normalMatrix, jacobianOf, testModelLinear, testState, testW,
      testCfg, Matrix.det_fin_one, Matrix.mul_apply, Fin.sum_univ_two,
      Matrix.diagonal]
  exact ⟨hdet, (lm_accept_iff_chi2_decreases testModelLinear testCfg testY
    testW testState hdet).1⟩

/-- Witness for C4: the constant test fitter has a zero finite difference
Jacobian, hence singular normal equations, and the iteration rejects. -/
theorem lm_singular_normal_matrix_rejects_witness :
    (normalMatrix (jacobianOf testModelConst testCfg testState.params) testW
        testState.lambda).det = 0 ∧
    (iteration testModelConst testCfg testY testW testState).accepted =
      false := by
  have hdet : (normalMatrix (jacobianOf testModelConst testCfg
      testState.params) testW testState.lambda).det = 0 := by
    norm_num [normalMatrix, jacobianOf, testModelConst, fdJacobian, stepSizes,
      testState, testW, testCfg, Matrix.det_fin_one, Matrix.mul_apply,
      Fin.sum_univ_two, Matrix.diagonal]
  exact ⟨hdet, (lm_singular_normal_matrix_rejects testModelConst testCfg
    testY testW testState hdet).1⟩

/-- Witness for C6 at the unit variance vector. -/
theorem lm_diagonal_full_covariance_equivalence_witness :
    (∀ i, testVariance i ≠ 0) ∧
    (CovarianceRep.diagonal testVariance).weight =
      Matrix.diagonal (fun i => (testVariance i)⁻¹) := by
  have hv : ∀ i, testVariance i ≠ 0 := fun i => by simp [testVariance]
  exact ⟨hv, (lm_diagonal_full_covariance_equivalence testModelLinear testCfg
    testY testVariance hv 1 testState testState.params).1⟩

/-! ## PGM serialisation of Image

The stream is modelled as a list of characters; raster bytes are characters
with code below 256.  `std::to_string`, `std::stoll` / `std::stoi` /
`std::stoul` and `std::getline` are modelled below; `IoUtil::split` and
`V4L2Util::getV4l2FieldNameFromIndex`, whose sources are not in the tree,
are modelled from the spec as standard tokenisation and the standard V4L2
field names. -/

/-- Decimal digit character for a digit d < 10. -/
def digitChar (d : Nat) : Char := Char.ofNat (48 + d)

/-- Little-endian decimal digits of n (least significant first), empty for
zero; fuel-based so that the recursion is structural. -/
def natDigitsRev : Nat → Nat → List Char
  | 0, _ => []
  | fuel + 1, n =>
    if n = 0 then [] else digitChar (n % 10) :: natDigitsRev fuel (n / 10)

/-- Decimal representation of a natural number, as written by
`std::to_string`. -/
def natToChars (n : Nat) : List Char :=
  if n = 0 then ['0'] else (natDigitsRev n n).reverse

/-- Decimal representation of a signed integer, as written by
`std::to_string` on a `long long`. -/
def intToChars (i : Int) : List Char :=
  if i < 0 then '-' :: natToChars (-i).toNat else natToChars i.toNat

/-- Value of a most-significant-first digit list, the accumulation loop of
the std parsing functions. -/
def digitsVal (l : List Char) : Nat :=
  l.foldl (fun a c => 10 * a + (c.toNat - 48)) 0

/-- Longest decimal digit prefix of the input, requiring at least one
digit. -/
def parseNatPrefix (s : List Char) : Option Nat :=
  let ds := s.takeWhile fun c => c.isDigit
  if ds.isEmpty then none else some (digitsVal ds)

/-- Modelled std numeric parsing core shared by stoll / stoi: an optional
sign followed by at least one decimal digit; trailing characters are ignored
as in `strtoll`.  (The values arising in this file never carry leading
whitespace, so whitespace skipping is not modelled.) -/
def parseSigned (s : List Char) : Option Int :=
  if s.head? = some '-' then
    (parseNatPrefix (s.drop 1)).map fun (n : Nat) => -(n : Int)
  else if s.head? = some '+' then
    (parseNatPrefix (s.drop 1)).map fun (n : Nat) => (n : Int)
  else
    (parseNatPrefix s).map fun (n : Nat) => (n : Int)

/-- `std::stoll`: parse with the `long long` range check. -/
def stollChars (s : List Char) : Option Int :=
  (parseSigned s).bind fun v =>
    if v < -(2 ^ 63) ∨ 2 ^ 63 ≤ v then none else some v

/-- `std::stoi`: parse with the `int` range check. -/
def stoiChars (s : List Char) : Option Int :=
  (parseSigned s).bind fun v =>
    if v < -(2 ^ 31) ∨ 2 ^ 31 ≤ v then none else some v

/-- `std::stoul`: the digit value must fit an `unsigned long`; a leading
minus sign wraps modulo 2^64. -/
def stoulChars (s : List Char) : Option Nat :=
  let withSign : Bool × List Char :=
    if s.head? = some '-' then (true, s.drop 1)
    else if s.head? = some '+' then (false, s.drop 1)
    else (false, s)
  let ds := withSign.2.takeWhile fun c => c.isDigit
  if ds.isEmpty then none
  else
    let n := digitsVal ds
    if 2 ^ 64 ≤ n then none
    else some (if withSign.1 then (2 ^ 64 - n % 2 ^ 64) % 2 ^ 64 else n)

/-- `std::getline`: the characters before the first newline (which is
consumed), and the remaining stream. -/
def getLine (s : List Char) : List Char × List Char :=
  match s with
  | [] => ([], [])
  | c :: r =>
    if c = '\n' then ([], r)
    else
      let p := getLine r
      (c :: p.1, p.2)

/-- Modelled from the spec: `IoUtil::split` (util/ioutil) is not in the
source tree; it is modelled as standard tokenisation at a delimiter
character, keeping empty tokens. -/
def splitOnChar (c : Char) : List Char → List (List Char)
  | [] => [[]]
  | a :: r =>
    if a = c then [] :: splitOnChar c r
    else
      match splitOnChar c r with
      | [] => [[a]]
      | t :: ts => (a :: t) :: ts

/-- The standard V4L2 field names, indexed by the `v4l2_field` enum value. -/
def v4l2FieldNameTable : List (List Char) :=
  ["V4L2_FIELD_ANY".toList, "V4L2_FIELD_NONE".toList,
   "V4L2_FIELD_TOP".toList, "V4L2_FIELD_BOTTOM".toList,
   "V4L2_FIELD_INTERLACED".toList, "V4L2_FIELD_SEQ_TB".toList,
   "V4L2_FIELD_SEQ_BT".toList, "V4L2_FIELD_ALTERNATE".toList,
   "V4L2_FIELD_INTERLACED_TB".toList, "V4L2_FIELD_INTERLACED_BT".toList]

/-- Modelled from the spec: `V4L2Util::getV4l2FieldNameFromIndex` is not in
the source tree; modelled as the standard V4L2 field name for the index (a
fallback for out of range indices).  Only that the name contains no newline,
no space and no equals sign matters to the serialisation round trip, since
the reader ignores the `v4l2_field_name` key. -/
def v4l2FieldName (idx : Nat) : List Char :=
  v4l2FieldNameTable.getD idx "UNKNOWN".toList

/-- The raster section written by `operator<<`: for each k < height and
l < width in row major order, the byte `rawImage[k*width + l]` (vector
indexing modelled by `getD`). -/
def writeRaster (img : Image) : List Char :=
  (List.range img.height).flatMap fun k =>
    (List.range img.width).map fun l =>
      Char.ofNat (img.rawImage.getD (k * img.width + l) 0)

/-- The PGM stream written by `operator<<(std::ostream&, const Image&)`: the
magic line, the header comment lines (bounding box lines only when coarse
localisation succeeded), the width / height / maximum-value line, and the
raw raster bytes. -/
def writeImage (img : Image) : List Char :=
  "P5\n".toList ++
  ("# epochTimeUs=".toList ++ intToChars img.epochTimeUs ++ ['\n']) ++
  ("# v4l2_field_index=".toList ++ natToChars img.field ++ ['\n']) ++
  ("# v4l2_field_name=".toList ++ v4l2FieldName img.field ++ ['\n']) ++
  ("# coarse_localisation_success=".toList ++
    (if img.coarse_localisation_success then ['1'] else ['0']) ++ ['\n']) ++
  (if img.coarse_localisation_success then
    ("# bb_xmin=".toList ++ natToChars img.bb_xmin ++ ['\n']) ++
    ("# bb_xmax=".toList ++ natToChars img.bb_xmax ++ ['\n']) ++
    ("# bb_ymin=".toList ++ natToChars img.bb_ymin ++ ['\n']) ++
    ("# bb_ymax=".toList ++ natToChars img.bb_ymax ++ ['\n'])
  else []) ++
  (natToChars img.width ++ [' '] ++ natToChars img.height ++
    " 255\n".toList) ++
  writeRaster img

/-- `Image::generateAnnotatedImage`: clear the annotated image, fill it with
width*height fully transparent pixels, then draw the bounding box edges when
coarse localisation succeeded (0xFF0000FF = 4278190335).  An out of range
`List.set` is a no-op in the model (out of range vector writes would be
undefined behaviour in the C++; the claims only involve in-bounds boxes). -/
def generateAnnotatedImage (img : Image) : Image :=
  let base := List.replicate (img.width * img.height) 0
  let ann :=
    if img.coarse_localisation_success then
      let horiz := (List.range (img.bb_xmax + 1 - img.bb_xmin)).foldl
        (fun a i =>
          (a.set (img.bb_ymin * img.width + (img.bb_xmin + i)) 4278190335).set
            (img.bb_ymax * img.width + (img.bb_xmin + i)) 4278190335) base
      (List.range (img.bb_ymax + 1 - img.bb_ymin)).foldl
        (fun a i =>
          (a.set ((img.bb_ymin + i) * img.width + img.bb_xmin)
              4278190335).set
            ((img.bb_ymin + i) * img.width + img.bb_xmax) 4278190335) horiz
    else base
  { img with annotatedImage := ann }

/-- Update of the image from one parsed header key / value pair, mirroring
the sequence of `if(!key.compare(...))` blocks in `operator>>`: an unknown
key leaves the image unchanged; a known key whose value fails to parse
aborts the whole read (the C++ returns from the operator).  Narrowing of the
parsed value to the C++ member type is modelled by the corresponding
truncation. -/
def applyHeaderPair (key val : List Char) (img : Image) : Option Image :=
  (if key = "epochTimeUs".toList then
    (stollChars val).map fun v => { img with epochTimeUs := v }
  else some img).bind fun img1 =>
  (if key = "v4l2_field_index".toList then
    (stoulChars val).map fun v => { img1 with field := v % 2 ^ 32 }
  else some img1).bind fun img2 =>
  (if key = "coarse_localisation_success".toList then
    (stollChars val).map fun v =>
      { img2 with coarse_localisation_success := v != 0 }
  else some img2).bind fun img3 =>
  (if key = "bb_xmin".toList then
    (stoulChars val).map fun v => { img3 with bb_xmin := v % 2 ^ 32 }
  else some img3).bind fun img4 =>
  (if key = "bb_xmax".toList then
    (stoulChars val).map fun v => { img4 with bb_xmax := v % 2 ^ 32 }
  else some img4).bind fun img5 =>
  (if key = "bb_ymin".toList then
    (stoulChars val).map fun v => { img5 with bb_ymin := v % 2 ^ 32 }
  else some img5).bind fun img6 =>
  if key = "bb_ymax".toList then
    (stoulChars val).map fun v => { img6 with bb_ymax := v % 2 ^ 32 }
  else some img6

/-- Processing of one '#' header line by `operator>>`: tokenise at spaces,
drop the leading '#' token, re-join the remaining tokens, split the result
at '=' into exactly two parts, and apply the key / value pair; any other
shape aborts the read. -/
def processHeaderLine (line : List Char) (img : Image) : Option Image :=
  let x := (splitOnChar ' ' line).drop 1
  let keyValue := x.foldl (fun a b => a ++ b) []
  match splitOnChar '=' keyValue with
  | [key, val] => applyHeaderPair key val img
  | _ => none

theorem getLine_rest_length (s : List Char) (hs : s ≠ []) :
    (getLine s).2.length < s.length := by
  induction s with
  | nil => exact absurd rfl hs
  | cons c r ih =>
    simp only [getLine]
    split
    · simp
    · rcases r with _ | ⟨d, t⟩
      · simp [getLine]
      · exact Nat.lt_succ_of_lt (ih (by simp))

/-- The header loop of `operator>>`: while the next character is '#', read a
line and process it; a processing failure aborts the read (the flag is false
and the image is left as parsed so far, as the C++ operator returns). -/
def readHeaderLines (s : List Char) (img : Image) :
    List Char × Image × Bool :=
  if _h : s.head? = some '#' then
    match processHeaderLine (getLine s).1 img with
    | none => ((getLine s).2, img, false)
    | some img2 => readHeaderLines (getLine s).2 img2
  else (s, img, true)
termination_by s.length
decreasing_by
  exact getLine_rest_length s (by rcases s with _ | _ <;> simp_all)

/-- Final stages of `operator>>`: parse the width / height / maximum-value
line (an empty stream, a line without exactly three tokens, or a failing
`std::stoi` aborts, leaving the image as parsed so far), then append
width*height raster bytes to the image's pixel vector (running out of data
early aborts after the partial append) and regenerate the annotated
image. -/
def readSizeAndRaster (s : List Char) (img : Image) : Image :=
  if s.isEmpty then img
  else
    let p2 := getLine s
    let x := splitOnChar ' ' p2.1
    if x.length ≠ 3 then img
    else
      match stoiChars (x.getD 0 []) with
      | none => img
      | some w =>
        let imgW := { img with width := (w % 2 ^ 32).toNat }
        match stoiChars (x.getD 1 []) with
        | none => imgW
        | some hgt =>
          let imgH := { imgW with height := (hgt % 2 ^ 32).toNat }
          if p2.2.length < imgH.width * imgH.height then
            { imgH with rawImage := imgH.rawImage ++ p2.2.map Char.toNat }
          else
            generateAnnotatedImage
              { imgH with rawImage := imgH.rawImage ++
                  ((p2.2.take (imgH.width * imgH.height)).map Char.toNat) }

/-- `operator>>(std::istream&, Image&)`: check the P5 magic line, run the
header loop, then parse the size line and raster via `readSizeAndRaster`.
Any failure returns the image as parsed so far, skipping the remaining
stages (the C++ operator returns early).  Reading `line.data()[1]` of a
too-short line yields the NUL terminator, modelled by the `getD`
default. -/
def readImage (s : List Char) (img : Image) : Image :=
  let p1 := getLine s
  if p1.1.getD 0 (Char.ofNat 0) ≠ 'P' ∨ p1.1.getD 1 (Char.ofNat 0) ≠ '5' then
    img
  else
    let hdr := readHeaderLines p1.2 img
    if hdr.2.2 = false then hdr.2.1
    else readSizeAndRaster hdr.1 hdr.2.1

/-! ### Decimal printing and parsing lemmas -/

theorem digitChar_isDigit {d : Nat} (hd : d < 10) :
    (digitChar d).isDigit = true := by
  interval_cases d <;> decide

theorem digitChar_toNat {d : Nat} (hd : d < 10) :
    (digitChar d).toNat = 48 + d := by
  interval_cases d <;> decide

theorem isDigit_ne {c d : Char} (h : c.isDigit = true)
    (hd : d.isDigit = false) : c ≠ d := by
  intro e
  rw [e, hd] at h
  cases h

theorem natDigitsRev_digits :
    ∀ fuel n : Nat, ∀ c ∈ natDigitsRev fuel n, c.isDigit = true := by
  intro fuel
  induction fuel with
  | zero => intro n c hc; simp [natDigitsRev] at hc
  | succ k ih =>
    intro n c hc
    simp only [natDigitsRev] at hc
    split at hc
    · simp at hc
    · rcases List.mem_cons.mp hc with h | h
      · exact h ▸ digitChar_isDigit (Nat.mod_lt _ (by norm_num))
      · exact ih _ c h

theorem natToChars_digits (n : Nat) :
    ∀ c ∈ natToChars n, c.isDigit = true := by
  intro c hc
  simp only [natToChars] at hc
  split at hc
  · simp at hc
    simp [hc]
  · exact natDigitsRev_digits n n c (List.mem_reverse.mp hc)

theorem natToChars_ne_nil (n : Nat) : natToChars n ≠ [] := by
  simp only [natToChars]
  split
  · simp
  · next h =>
    simp only [ne_eq, List.reverse_eq_nil_iff]
    cases fn : n with
    | zero => exact absurd fn h
    | succ m =>
      simp only [natDigitsRev]
      rw [if_neg (fn ▸ h)]
      simp

theorem natDigitsRev_foldr :
    ∀ fuel n : Nat, n ≤ fuel →
      (natDigitsRev fuel n).foldr (fun c a => 10 * a + (c.toNat - 48)) 0 =
        n := by
  intro fuel
  induction fuel with
  | zero =>
    intro n hn
    interval_cases n
    simp [natDigitsRev]
  | succ k ih =>
    intro n hn
    simp only [natDigitsRev]
    split
    · next h => simp [h]
    · next h =>
      have hpos : 0 < n := Nat.pos_of_ne_zero h
      have hdiv : n / 10 ≤ k := by
        have : n / 10 < n := Nat.div_lt_self hpos (by norm_num)
        omega
      simp only [List.foldr_cons, ih (n / 10) hdiv,
        digitChar_toNat (Nat.mod_lt n (by norm_num))]
      omega

theorem digitsVal_natToChars (n : Nat) : digitsVal (natToChars n) = n := by
  simp only [natToChars]
  split
  · next h => simp [h, digitsVal]
  · next h =>
    simp only [digitsVal, List.foldl_reverse]
    exact natDigitsRev_foldr n n le_rfl

theorem takeWhile_all {p : Char → Bool} :
    ∀ l : List Char, (∀ c ∈ l, p c = true) → l.takeWhile p = l := by
  intro l
  induction l with
  | nil => intro _; rfl
  | cons a t ih =>
    intro h
    simp only [List.takeWhile_cons, h a (List.mem_cons_self a t), if_pos]
    rw [ih fun c hc => h c (List.mem_cons_of_mem a hc)]

theorem parseNatPrefix_natToChars (n : Nat) :
    parseNatPrefix (natToChars n) = some n := by
  simp only [parseNatPrefix, takeWhile_all _ (natToChars_digits n)]
  rw [if_neg (by simpa using natToChars_ne_nil n)]
  rw [digitsVal_natToChars]

theorem natToChars_head_digit (n : Nat) :
    ∃ c t, natToChars n = c :: t ∧ c.isDigit = true := by
  cases h : natToChars n with
  | nil => exact absurd h (natToChars_ne_nil n)
  | cons c t =>
    exact ⟨c, t, rfl, natToChars_digits n c (h ▸ List.mem_cons_self c t)⟩

theorem natToChars_head_not_sign (n : Nat) :
    ¬(natToChars n).head? = some '-' ∧ ¬(natToChars n).head? = some '+' := by
  obtain ⟨c, t, hct, hdig⟩ := natToChars_head_digit n
  rw [hct]
  simp only [List.head?_cons, Option.some_inj]
  exact ⟨isDigit_ne hdig (by decide), isDigit_ne hdig (by decide)⟩

theorem parseSigned_intToChars (e : Int) :
    parseSigned (intToChars e) = some e := by
  by_cases he : e < 0
  · simp only [intToChars, if_pos he, parseSigned]
    have hm : ('-' :: natToChars (-e).toNat).head? = some '-' := rfl
    rw [if_pos hm]
    simp only [List.drop_succ_cons, List.drop_zero]
    rw [parseNatPrefix_natToChars]
    simp only [Option.map_some', Option.some_inj]
    omega
  · simp only [intToChars, if_neg he, parseSigned]
    obtain ⟨h1, h2⟩ := natToChars_head_not_sign e.toNat
    rw [if_neg h1, if_neg h2, parseNatPrefix_natToChars]
    simp only [Option.map_some', Option.some_inj]
    omega

theorem stollChars_intToChars (e : Int) (h1 : -(2 ^ 63) ≤ e)
    (h2 : e < 2 ^ 63) : stollChars (intToChars e) = some e := by
  have hr : ¬(e < -(2 ^ 63) ∨ 2 ^ 63 ≤ e) := by push_neg; exact ⟨h1, h2⟩
  simp only [stollChars, parseSigned_intToChars, Option.some_bind]
  rw [if_neg hr]

theorem intToChars_natCast (n : Nat) : intToChars (n : Int) = natToChars n := by
  simp [intToChars]

theorem stoiChars_natToChars (n : Nat) (h : n < 2 ^ 31) :
    stoiChars (natToChars n) = some (n : Int) := by
  have hp : parseSigned (natToChars n) = some (n : Int) := by
    rw [← intToChars_natCast]
    exact parseSigned_intToChars _
  have hr : ¬((n : Int) < -(2 ^ 31) ∨ 2 ^ 31 ≤ (n : Int)) := by
    push_neg
    omega
  simp only [stoiChars, hp, Option.some_bind]
  rw [if_neg hr]

theorem stoulChars_natToChars (n : Nat) (h : n < 2 ^ 64) :
    stoulChars (natToChars n) = some n := by
  obtain ⟨h1, h2⟩ := natToChars_head_not_sign n
  simp only [stoulChars, if_neg h1, if_neg h2]
  simp only [takeWhile_all _ (natToChars_digits n)]
  rw [if_neg (by simpa using natToChars_ne_nil n)]
  rw [digitsVal_natToChars, if_neg (by omega)]
  simp

/-! ### Stream primitive lemmas -/

theorem getLine_append (l rest : List Char) (hl : '\n' ∉ l) :
    getLine (l ++ '\n' :: rest) = (l, rest) := by
  induction l with
  | nil => simp [getLine]
  | cons c t ih =>
    simp only [List.cons_append, getLine]
    rw [if_neg (by
      intro e
      exact hl (e ▸ List.mem_cons_self c t))]
    simp only [List.append_eq]
    rw [ih fun hm => hl (List.mem_cons_of_mem c hm)]

theorem splitOnChar_no_delim (c : Char) :
    ∀ l : List Char, c ∉ l → splitOnChar c l = [l] := by
  intro l
  induction l with
  | nil => intro _; rfl
  | cons a t ih =>
    intro h
    simp only [splitOnChar]
    rw [if_neg (by
      intro e
      exact h (e ▸ List.mem_cons_self a t))]
    rw [ih fun hm => h (List.mem_cons_of_mem a hm)]

theorem splitOnChar_append (c : Char) (a b : List Char) (ha : c ∉ a) :
    splitOnChar c (a ++ c :: b) = a :: splitOnChar c b := by
  induction a with
  | nil =>
    simp [splitOnChar]
  | cons x t ih =>
    simp only [List.cons_append, splitOnChar]
    rw [if_neg (by
      intro e
      exact ha (e ▸ List.mem_cons_self x t))]
    simp only [List.append_eq]
    rw [ih fun hm => ha (List.mem_cons_of_mem x hm)]

theorem splitOnChar_ne_nil (c : Char) :
    ∀ l : List Char, splitOnChar c l ≠ [] := by
  intro l
  induction l with
  | nil => simp [splitOnChar]
  | cons a t ih =>
    simp only [splitOnChar]
    split
    · simp
    · split
      · simp
      · simp

/-- The characters a decimal natural-number representation can contain are
digits; in particular none of the structural characters of the stream. -/
theorem natToChars_not_mem (n : Nat) {d : Char} (hd : d.isDigit = false) :
    d ∉ natToChars n := by
  intro hm
  have := natToChars_digits n d hm
  rw [hd] at this
  cases this

theorem intToChars_not_mem (e : Int) {d : Char} (hd : d.isDigit = false)
    (hminus : d ≠ '-') : d ∉ intToChars e := by
  simp only [intToChars]
  split
  · intro hm
    rcases List.mem_cons.mp hm with h | h
    · exact hminus h
    · exact natToChars_not_mem _ hd h
  · exact natToChars_not_mem _ hd

/-- The modelled V4L2 field names contain no newline, no space and no equals
sign, and are nonempty. -/
theorem v4l2FieldName_clean (idx : Nat) :
    v4l2FieldName idx ≠ [] ∧ '\n' ∉ v4l2FieldName idx ∧
    ' ' ∉ v4l2FieldName idx ∧ '=' ∉ v4l2FieldName idx := by
  have hP : ∀ l ∈ v4l2FieldNameTable,
      l ≠ [] ∧ '\n' ∉ l ∧ ' ' ∉ l ∧ '=' ∉ l := by decide
  by_cases h : idx < v4l2FieldNameTable.length
  · have hmem : v4l2FieldName idx ∈ v4l2FieldNameTable := by
      simp only [v4l2FieldName, List.getD_eq_getElem?_getD,
        List.getElem?_eq_getElem h]
      exact List.getElem_mem h
    exact hP _ hmem
  · have : v4l2FieldName idx = "UNKNOWN".toList := by
      simp only [v4l2FieldName, List.getD_eq_getElem?_getD]
      rw [List.getElem?_eq_none (by omega)]
      rfl
    rw [this]
    refine ⟨by decide, by decide, by decide, by decide⟩

/-! ### Header line processing lemmas -/

theorem processHeaderLine_pair (key val : List Char) (img : Image)
    (hk1 : ' ' ∉ key) (hk2 : '=' ∉ key) (hv1 : ' ' ∉ val)
    (hv2 : '=' ∉ val) :
    processHeaderLine ('#' :: ' ' :: (key ++ '=' :: val)) img =
      applyHeaderPair key val img := by
  have hkv : ' ' ∉ (key ++ '=' :: val) := by
    intro hm
    rcases List.mem_append.mp hm with h | h
    · exact hk1 h
    · rcases List.mem_cons.mp h with h | h
      · cases h
      · exact hv1 h
  simp only [processHeaderLine]
  have h1 : splitOnChar ' ' ('#' :: ' ' :: (key ++ '=' :: val)) =
      [['#'], key ++ '=' :: val] := by
    have := splitOnChar_append ' ' ['#'] (key ++ '=' :: val) (by decide)
    simp only [List.cons_append, List.nil_append] at this
    rw [this, splitOnChar_no_delim ' ' _ hkv]
  rw [h1]
  simp only [List.drop_one, List.tail_cons, List.foldl_cons, List.foldl_nil,
    List.nil_append]
  rw [splitOnChar_append '=' key val hk2, splitOnChar_no_delim '=' val hv2]

theorem applyHeaderPair_epoch (val : List Char) (img : Image) (e : Int)
    (hv : stollChars val = some e) :
    applyHeaderPair ("epochTimeUs".toList) val img =
      some { img with epochTimeUs := e } := by
  simp +decide [applyHeaderPair, hv]

theorem applyHeaderPair_fieldIndex (val : List Char) (img : Image) (v : Nat)
    (hv : stoulChars val = some v) :
    applyHeaderPair ("v4l2_field_index".toList) val img =
      some { img with field := v % 2 ^ 32 } := by
  simp +decide [applyHeaderPair, hv]

theorem applyHeaderPair_fieldName (val : List Char) (img : Image) :
    applyHeaderPair ("v4l2_field_name".toList) val img = some img := by
  simp +decide [applyHeaderPair]

theorem applyHeaderPair_coarse (val : List Char) (img : Image) (v : Int)
    (hv : stollChars val = some v) :
    applyHeaderPair ("coarse_localisation_success".toList) val img =
      some { img with coarse_localisation_success := v != 0 } := by
  simp +decide [applyHeaderPair, hv]

theorem applyHeaderPair_bbxmin (val : List Char) (img : Image) (v : Nat)
    (hv : stoulChars val = some v) :
    applyHeaderPair ("bb_xmin".toList) val img =
      some { img with bb_xmin := v % 2 ^ 32 } := by
  simp +decide [applyHeaderPair, hv]

theorem applyHeaderPair_bbxmax (val : List Char) (img : Image) (v : Nat)
    (hv : stoulChars val = some v) :
    applyHeaderPair ("bb_xmax".toList) val img =
      some { img with bb_xmax := v % 2 ^ 32 } := by
  simp +decide [applyHeaderPair, hv]

theorem applyHeaderPair_bbymin (val : List Char) (img : Image) (v : Nat)
    (hv : stoulChars val = some v) :
    applyHeaderPair ("bb_ymin".toList) val img =
      some { img with bb_ymin := v % 2 ^ 32 } := by
  simp +decide [applyHeaderPair, hv]

theorem applyHeaderPair_bbymax (val : List Char) (img : Image) (v : Nat)
    (hv : stoulChars val = some v) :
    applyHeaderPair ("bb_ymax".toList) val img =
      some { img with bb_ymax := v % 2 ^ 32 } := by
  simp +decide [applyHeaderPair, hv]

theorem readHeaderLines_exit (s : List Char) (img : Image)
    (h : ¬s.head? = some '#') :
    readHeaderLines s img = (s, img, true) := by
  rw [readHeaderLines, dif_neg h]

theorem readHeaderLines_step (l rest : List Char) (img img2 : Image)
    (hl : l.head? = some '#') (hnl : '\n' ∉ l)
    (hp : processHeaderLine l img = some img2) :
    readHeaderLines (l ++ '\n' :: rest) img = readHeaderLines rest img2 := by
  have hhead : (l ++ '\n' :: rest).head? = some '#' := by
    cases l with
    | nil => cases hl
    | cons c t => simpa using hl
  rw [readHeaderLines, dif_pos hhead, getLine_append l rest hnl, hp]

/-! ### Raster lemmas -/

theorem getD_drop (l : List Nat) (n i : Nat) :
    (l.drop n).getD i 0 = l.getD (n + i) 0 := by
  induction l generalizing n with
  | nil => simp
  | cons a t ih =>
    cases n with
    | zero => simp
    | succ m =>
      simp only [List.drop_succ_cons]
      rw [ih m]
      have : m + 1 + i = (m + i) + 1 := by omega
      rw [this]
      simp

theorem range_map_getD {α : Type} (raw : List Nat) (w : Nat)
    (hw : w ≤ raw.length) (f : Nat → α) :
    (List.range w).map (fun l => f (raw.getD l 0)) = (raw.take w).map f := by
  apply List.ext_getElem
  · simp [Nat.min_eq_left hw]
  · intro i h1 h2
    simp only [List.getElem_map, List.getElem_range, List.getElem_take]
    have hi : i < raw.length := by
      simp at h1
      omega
    rw [List.getD_eq_getElem raw 0 hi]

theorem raster_blocks :
    ∀ (hgt w : Nat) (raw : List Nat), raw.length = hgt * w →
      (List.range hgt).flatMap
        (fun k => (List.range w).map fun l =>
          Char.ofNat (raw.getD (k * w + l) 0)) =
      raw.map Char.ofNat := by
  intro hgt
  induction hgt with
  | zero =>
    intro w raw hlen
    simp only [Nat.zero_mul, List.length_eq_zero] at hlen
    simp [hlen]
  | succ h ih =>
    intro w raw hlen
    rw [Nat.succ_mul] at hlen
    have hw : w ≤ raw.length := by omega
    rw [List.range_succ_eq_map, List.flatMap_cons, List.flatMap_map]
    have hblock : (List.range w).map
        (fun l => Char.ofNat (raw.getD (0 * w + l) 0)) =
        (raw.take w).map Char.ofNat := by
      simp only [Nat.zero_mul, Nat.zero_add]
      exact range_map_getD raw w hw Char.ofNat
    have hidx : ∀ a l : Nat,
        raw.getD (Nat.succ a * w + l) 0 = (raw.drop w).getD (a * w + l) 0 := by
      intro a l
      rw [getD_drop]
      congr 1
      rw [Nat.succ_mul]
      ring
    rw [hblock]
    simp only [hidx]
    rw [ih w (raw.drop w) (by simp; omega)]
    rw [← List.map_append, List.take_append_drop]

theorem writeRaster_eq (img : Image)
    (hlen : img.rawImage.length = img.width * img.height) :
    writeRaster img = img.rawImage.map Char.ofNat := by
  unfold writeRaster
  exact raster_blocks img.height img.width img.rawImage (by rw [hlen]; ring)

theorem writeRaster_length (img : Image) :
    (writeRaster img).length = img.height * img.width := by
  simp only [writeRaster, List.length_flatMap]
  simp [Function.comp_def, List.map_const', List.sum_replicate, smul_eq_mul]

theorem charOfNat_toNat {b : Nat} (hb : b < 55296) :
    (Char.ofNat b).toNat = b := by
  rw [Char.ofNat, dif_pos (Or.inl hb)]
  rfl

theorem raster_roundtrip (img : Image)
    (hlen : img.rawImage.length = img.width * img.height)
    (hbytes : ∀ b ∈ img.rawImage, b < 256) :
    (writeRaster img).map Char.toNat = img.rawImage := by
  rw [writeRaster_eq img hlen, List.map_map]
  have hpt : ∀ b ∈ img.rawImage, (Char.toNat ∘ Char.ofNat) b = b := fun b hb =>
    charOfNat_toNat (lt_trans (hbytes b hb) (by norm_num))
  rw [List.map_congr_left hpt]
  simp

/-! ### Consuming the writer's header lines -/

theorem notin_header_line {d : Char} (key val : List Char)
    (h1 : d ≠ '#') (h2 : d ≠ ' ') (h3 : d ∉ key) (h4 : d ≠ '=')
    (h5 : d ∉ val) : d ∉ '#' :: ' ' :: (key ++ '=' :: val) := by
  intro hm
  simp only [List.mem_cons, List.mem_append] at hm
  rcases hm with h | h | h | h
  · exact h1 h
  · exact h2 h
  · exact h3 h
  · rcases h with h | h
    · exact h4 h
    · exact h5 h

theorem newline_notin_natToChars (n : Nat) : '\n' ∉ natToChars n :=
  natToChars_not_mem n (by decide)

theorem space_notin_natToChars (n : Nat) : ' ' ∉ natToChars n :=
  natToChars_not_mem n (by decide)

theorem eqsign_notin_natToChars (n : Nat) : '=' ∉ natToChars n :=
  natToChars_not_mem n (by decide)

theorem newline_notin_intToChars (e : Int) : '\n' ∉ intToChars e :=
  intToChars_not_mem e (by decide) (by decide)

theorem space_notin_intToChars (e : Int) : ' ' ∉ intToChars e :=
  intToChars_not_mem e (by decide) (by decide)

theorem eqsign_notin_intToChars (e : Int) : '=' ∉ intToChars e :=
  intToChars_not_mem e (by decide) (by decide)

theorem readHeaderLines_epoch (e : Int) (rest : List Char) (img : Image)
    (he1 : -(2 ^ 63) ≤ e) (he2 : e < 2 ^ 63) :
    readHeaderLines
      (('#' :: ' ' :: ("epochTimeUs".toList ++ '=' :: intToChars e)) ++
        '\n' :: rest) img =
      readHeaderLines rest { img with epochTimeUs := e } := by
  rw [readHeaderLines_step
    ('#' :: ' ' :: ("epochTimeUs".toList ++ '=' :: intToChars e))
    rest img { img with epochTimeUs := e } rfl
    (notin_header_line _ _ (by decide) (by decide) (by decide) (by decide)
      (newline_notin_intToChars e)) ?_]
  rw [processHeaderLine_pair _ _ _ (by decide) (by decide)
    (space_notin_intToChars e) (eqsign_notin_intToChars e)]
  exact applyHeaderPair_epoch _ _ e (stollChars_intToChars e he1 he2)

theorem readHeaderLines_fieldIndex (v : Nat) (rest : List Char) (img : Image)
    (hv : v < 2 ^ 64) :
    readHeaderLines
      (('#' :: ' ' :: ("v4l2_field_index".toList ++ '=' :: natToChars v)) ++
        '\n' :: rest) img =
      readHeaderLines rest { img with field := v % 2 ^ 32 } := by
  rw [readHeaderLines_step
    ('#' :: ' ' :: ("v4l2_field_index".toList ++ '=' :: natToChars v))
    rest img { img with field := v % 2 ^ 32 } rfl
    (notin_header_line _ _ (by decide) (by decide) (by decide) (by decide)
      (newline_notin_natToChars v)) ?_]
  rw [processHeaderLine_pair _ _ _ (by decide) (by decide)
    (space_notin_natToChars v) (eqsign_notin_natToChars v)]
  exact applyHeaderPair_fieldIndex _ _ v (stoulChars_natToChars v hv)

theorem readHeaderLines_fieldName (idx : Nat) (rest : List Char)
    (img : Image) :
    readHeaderLines
      (('#' :: ' ' :: ("v4l2_field_name".toList ++ '=' :: v4l2FieldName idx))
        ++ '\n' :: rest) img =
      readHeaderLines rest img := by
  obtain ⟨-, hnl, hsp, heq⟩ := v4l2FieldName_clean idx
  rw [readHeaderLines_step
    ('#' :: ' ' :: ("v4l2_field_name".toList ++ '=' :: v4l2FieldName idx))
    rest img img rfl
    (notin_header_line _ _ (by decide) (by decide) (by decide) (by decide)
      hnl) ?_]
  rw [processHeaderLine_pair _ _ _ (by decide) (by decide) hsp heq]
  exact applyHeaderPair_fieldName _ _

theorem readHeaderLines_coarse (b : Bool) (rest : List Char) (img : Image) :
    readHeaderLines
      (('#' :: ' ' :: ("coarse_localisation_success".toList ++
        '=' :: (if b then ['1'] else ['0']))) ++ '\n' :: rest) img =
      readHeaderLines rest
        { img with coarse_localisation_success := b } := by
  cases b
  · rw [readHeaderLines_step
      ('#' :: ' ' :: ("coarse_localisation_success".toList ++
        '=' :: (if false then ['1'] else ['0'])))
      rest img { img with coarse_localisation_success := false } rfl
      (notin_header_line _ _ (by decide) (by decide) (by decide) (by decide)
        (by decide)) ?_]
    rw [if_neg (by decide)]
    rw [processHeaderLine_pair _ _ _ (by decide) (by decide) (by decide)
      (by decide)]
    have h0 : stollChars ['0'] = some 0 := by decide
    rw [applyHeaderPair_coarse _ _ 0 h0]
    simp
  · rw [readHeaderLines_step
      ('#' :: ' ' :: ("coarse_localisation_success".toList ++
        '=' :: (if true then ['1'] else ['0'])))
      rest img { img with coarse_localisation_success := true } rfl
      (notin_header_line _ _ (by decide) (by decide) (by decide) (by decide)
        (by decide)) ?_]
    rw [if_pos (by decide)]
    rw [processHeaderLine_pair _ _ _ (by decide) (by decide) (by decide)
      (by decide)]
    have h1 : stollChars ['1'] = some 1 := by decide
    rw [applyHeaderPair_coarse _ _ 1 h1]
    simp

theorem readHeaderLines_bbxmin (v : Nat) (rest : List Char) (img : Image)
    (hv : v < 2 ^ 64) :
    readHeaderLines
      (('#' :: ' ' :: ("bb_xmin".toList ++ '=' :: natToChars v)) ++
        '\n' :: rest) img =
      readHeaderLines rest { img with bb_xmin := v % 2 ^ 32 } := by
  rw [readHeaderLines_step
    ('#' :: ' ' :: ("bb_xmin".toList ++ '=' :: natToChars v))
    rest img { img with bb_xmin := v % 2 ^ 32 } rfl
    (notin_header_line _ _ (by decide) (by decide) (by decide) (by decide)
      (newline_notin_natToChars v)) ?_]
  rw [processHeaderLine_pair _ _ _ (by decide) (by decide)
    (space_notin_natToChars v) (eqsign_notin_natToChars v)]
  exact applyHeaderPair_bbxmin _ _ v (stoulChars_natToChars v hv)

theorem readHeaderLines_bbxmax (v : Nat) (rest : List Char) (img : Image)
    (hv : v < 2 ^ 64) :
    readHeaderLines
      (('#' :: ' ' :: ("bb_xmax".toList ++ '=' :: natToChars v)) ++
        '\n' :: rest) img =
      readHeaderLines rest { img with bb_xmax := v % 2 ^ 32 } := by
  rw [readHeaderLines_step
    ('#' :: ' ' :: ("bb_xmax".toList ++ '=' :: natToChars v))
    rest img { img with bb_xmax := v % 2 ^ 32 } rfl
    (notin_header_line _ _ (by decide) (by decide) (by decide) (by decide)
      (newline_notin_natToChars v)) ?_]
  rw [processHeaderLine_pair _ _ _ (by decide) (by decide)
    (space_notin_natToChars v) (eqsign_notin_natToChars v)]
  exact applyHeaderPair_bbxmax _ _ v (stoulChars_natToChars v hv)

theorem readHeaderLines_bbymin (v : Nat) (rest : List Char) (img : Image)
    (hv : v < 2 ^ 64) :
    readHeaderLines
      (('#' :: ' ' :: ("bb_ymin".toList ++ '=' :: natToChars v)) ++
        '\n' :: rest) img =
      readHeaderLines rest { img with bb_ymin := v % 2 ^ 32 } := by
  rw [readHeaderLines_step
    ('#' :: ' ' :: ("bb_ymin".toList ++ '=' :: natToChars v))
    rest img { img with bb_ymin := v % 2 ^ 32 } rfl
    (notin_header_line _ _ (by decide) (by decide) (by decide) (by decide)
      (newline_notin_natToChars v)) ?_]
  rw [processHeaderLine_pair _ _ _ (by decide) (by decide)
    (space_notin_natToChars v) (eqsign_notin_natToChars v)]
  exact applyHeaderPair_bbymin _ _ v (stoulChars_natToChars v hv)

theorem readHeaderLines_bbymax (v : Nat) (rest : List Char) (img : Image)
    (hv : v < 2 ^ 64) :
    readHeaderLines
      (('#' :: ' ' :: ("bb_ymax".toList ++ '=' :: natToChars v)) ++
        '\n' :: rest) img =
      readHeaderLines rest { img with bb_ymax := v % 2 ^ 32 } := by
  rw [readHeaderLines_step
    ('#' :: ' ' :: ("bb_ymax".toList ++ '=' :: natToChars v))
    rest img { img with bb_ymax := v % 2 ^ 32 } rfl
    (notin_header_line _ _ (by decide) (by decide) (by decide) (by decide)
      (newline_notin_natToChars v)) ?_]
  rw [processHeaderLine_pair _ _ _ (by decide) (by decide)
    (space_notin_natToChars v) (eqsign_notin_natToChars v)]
  exact applyHeaderPair_bbymax _ _ v (stoulChars_natToChars v hv)

theorem readImage_magic (l rest : List Char) (img : Image)
    (h0 : l.getD 0 (Char.ofNat 0) = 'P') (h1 : l.getD 1 (Char.ofNat 0) = '5')
    (hnl : '\n' ∉ l) :
    readImage (l ++ '\n' :: rest) img =
      (if (readHeaderLines rest img).2.2 = false then
        (readHeaderLines rest img).2.1
      else
        readSizeAndRaster (readHeaderLines rest img).1
          (readHeaderLines rest img).2.1) := by
  simp only [readImage]
  rw [getLine_append l rest hnl]
  have hcond : ¬((l, rest).1.getD 0 (Char.ofNat 0) ≠ 'P' ∨
      (l, rest).1.getD 1 (Char.ofNat 0) ≠ '5') := by
    push_neg
    exact ⟨h0, h1⟩
  rw [if_neg hcond]

theorem readSizeAndRaster_exact (w hgt : Nat) (raster : List Char)
    (img : Image) (hw : w < 2 ^ 31) (hh : hgt < 2 ^ 31)
    (hlen : raster.length = w * hgt) :
    readSizeAndRaster
      ((natToChars w ++ ' ' :: (natToChars hgt ++ ' ' :: ['2', '5', '5'])) ++
        '\n' :: raster) img =
      generateAnnotatedImage
        { img with width := w, height := hgt,
                   rawImage := img.rawImage ++ raster.map Char.toNat } := by
  obtain ⟨c, t, hct, hdig⟩ := natToChars_head_digit w
  have hne : ((natToChars w ++ ' ' :: (natToChars hgt ++ ' ' ::
      ['2', '5', '5'])) ++ '\n' :: raster).isEmpty = false := by
    rw [hct]
    rfl
  have hline : '\n' ∉ (natToChars w ++ ' ' ::
      (natToChars hgt ++ ' ' :: ['2', '5', '5'])) := by
    intro hm
    simp only [List.mem_append, List.mem_cons] at hm
    rcases hm with h | h | h | h
    · exact newline_notin_natToChars w h
    · exact absurd h (by decide)
    · exact newline_notin_natToChars hgt h
    · rcases h with h | h
      · exact absurd h (by decide)
      · exact absurd h (by decide)
  have hsplit : splitOnChar ' ' (natToChars w ++ ' ' ::
      (natToChars hgt ++ ' ' :: ['2', '5', '5'])) =
      [natToChars w, natToChars hgt, ['2', '5', '5']] := by
    rw [splitOnChar_append ' ' _ _ (space_notin_natToChars w),
      splitOnChar_append ' ' _ _ (space_notin_natToChars hgt),
      splitOnChar_no_delim ' ' _ (by decide)]
  simp only [readSizeAndRaster]
  rw [hne]
  simp only [Bool.false_eq_true, if_false]
  rw [getLine_append _ raster hline]
  simp only []
  rw [hsplit]
  have h3 : ¬(([natToChars w, natToChars hgt,
      (['2', '5', '5'] : List Char)]).length ≠ 3) := by simp
  rw [if_neg h3]
  simp only [List.getD_cons_zero, List.getD_cons_succ]
  rw [stoiChars_natToChars w hw, stoiChars_natToChars hgt hh]
  have hwm : (((w : Int)) % 2 ^ 32).toNat = w := by omega
  have hhm : (((hgt : Int)) % 2 ^ 32).toNat = hgt := by omega
  simp only [hwm, hhm]
  have hnlt : ¬(raster.length < w * hgt) := by omega
  rw [if_neg hnlt]
  rw [List.take_of_length_le (by omega)]

theorem readImage_ok (l rest : List Char) (img : Image)
    (h0 : l.getD 0 (Char.ofNat 0) = 'P') (h1 : l.getD 1 (Char.ofNat 0) = '5')
    (hnl : '\n' ∉ l) (s2 : List Char) (img2 : Image)
    (hhdr : readHeaderLines rest img = (s2, img2, true)) :
    readImage (l ++ '\n' :: rest) img = readSizeAndRaster s2 img2 := by
  rw [readImage_magic l rest img h0 h1 hnl, hhdr]
  rfl

/-- The reader's output on the writer's stream, for an image without coarse
localisation results: all header fields parsed back, the raster re-read as
bytes, the annotated image regenerated. -/
theorem readImage_writeImage_false (img : Image)
    (hflag : img.coarse_localisation_success = false)
    (hw : img.width < 2 ^ 31) (hh : img.height < 2 ^ 31)
    (hf : img.field < 2 ^ 32)
    (he1 : -(2 ^ 63) ≤ img.epochTimeUs) (he2 : img.epochTimeUs < 2 ^ 63) :
    readImage (writeImage img) Image.defaultImage =
      generateAnnotatedImage
        { { { { Image.defaultImage with epochTimeUs := img.epochTimeUs }
                with field := img.field % 2 ^ 32 }
              with coarse_localisation_success := false }
            with width := img.width, height := img.height,
                 rawImage := Image.defaultImage.rawImage ++
                   (writeRaster img).map Char.toNat } := by
  have hs : writeImage img =
      ['P', '5'] ++ '\n' ::
      (('#' :: ' ' :: ("epochTimeUs".toList ++ '=' ::
          intToChars img.epochTimeUs)) ++ '\n' ::
      (('#' :: ' ' :: ("v4l2_field_index".toList ++ '=' ::
          natToChars img.field)) ++ '\n' ::
      (('#' :: ' ' :: ("v4l2_field_name".toList ++ '=' ::
          v4l2FieldName img.field)) ++ '\n' ::
      (('#' :: ' ' :: ("coarse_localisation_success".toList ++ '=' ::
          (if false then ['1'] else ['0']))) ++ '\n' ::
      ((natToChars img.width ++ ' ' :: (natToChars img.height ++ ' ' ::
          ['2', '5', '5'])) ++ '\n' ::
      writeRaster img))))) := by
    unfold writeImage
    rw [hflag]
    simp [List.append_assoc,
      (by decide : "P5\n".toList = ['P', '5', '\n']),
      (by decide : "# epochTimeUs=".toList =
        '#' :: ' ' :: ("epochTimeUs".toList ++ ['='])),
      (by decide : "# v4l2_field_index=".toList =
        '#' :: ' ' :: ("v4l2_field_index".toList ++ ['='])),
      (by decide : "# v4l2_field_name=".toList =
        '#' :: ' ' :: ("v4l2_field_name".toList ++ ['='])),
      (by decide : "# coarse_localisation_success=".toList =
        '#' :: ' ' :: ("coarse_localisation_success".toList ++ ['='])),
      (by decide : " 255\n".toList = [' ', '2', '5', '5', '\n'])]
  obtain ⟨c, t, hct, hdig⟩ := natToChars_head_digit img.width
  have hhead : ¬(((natToChars img.width ++ ' ' :: (natToChars img.height ++
      ' ' :: ['2', '5', '5'])) ++ '\n' :: writeRaster img).head? =
      some '#') := by
    rw [hct]
    simp only [List.cons_append, List.head?_cons, Option.some_inj]
    exact isDigit_ne hdig (by decide)
  rw [hs]
  rw [readImage_ok ['P', '5'] _ Image.defaultImage (by decide) (by decide)
    (by decide) _ _ (by
      rw [readHeaderLines_epoch img.epochTimeUs _ Image.defaultImage he1 he2]
      rw [readHeaderLines_fieldIndex img.field _ _ (by omega)]
      rw [readHeaderLines_fieldName img.field]
      rw [readHeaderLines_coarse false]
      rw [readHeaderLines_exit _ _ hhead])]
  rw [readSizeAndRaster_exact img.width img.height (writeRaster img) _ hw hh
    (by rw [writeRaster_length]; ring)]

/-- The reader's output on the writer's stream, for an image with coarse
localisation results: the bounding box header lines are written and parsed
back as well. -/
theorem readImage_writeImage_true (img : Image)
    (hflag : img.coarse_localisation_success = true)
    (hw : img.width < 2 ^ 31) (hh : img.height < 2 ^ 31)
    (hf : img.field < 2 ^ 32)
    (he1 : -(2 ^ 63) ≤ img.epochTimeUs) (he2 : img.epochTimeUs < 2 ^ 63)
    (hb1 : img.bb_xmin < 2 ^ 32) (hb2 : img.bb_xmax < 2 ^ 32)
    (hb3 : img.bb_ymin < 2 ^ 32) (hb4 : img.bb_ymax < 2 ^ 32) :
    readImage (writeImage img) Image.defaultImage =
      generateAnnotatedImage
        { { { { { { { { Image.defaultImage
                        with epochTimeUs := img.epochTimeUs }
                      with field := img.field % 2 ^ 32 }
                    with coarse_localisation_success := true }
                  with bb_xmin := img.bb_xmin % 2 ^ 32 }
                with bb_xmax := img.bb_xmax % 2 ^ 32 }
              with bb_ymin := img.bb_ymin % 2 ^ 32 }
            with bb_ymax := img.bb_ymax % 2 ^ 32 }
          with width := img.width, height := img.height,
               rawImage := Image.defaultImage.rawImage ++
                 (writeRaster img).map Char.toNat } := by
  have hs : writeImage img =
      ['P', '5'] ++ '\n' ::
      (('#' :: ' ' :: ("epochTimeUs".toList ++ '=' ::
          intToChars img.epochTimeUs)) ++ '\n' ::
      (('#' :: ' ' :: ("v4l2_field_index".toList ++ '=' ::
          natToChars img.field)) ++ '\n' ::
      (('#' :: ' ' :: ("v4l2_field_name".toList ++ '=' ::
          v4l2FieldName img.field)) ++ '\n' ::
      (('#' :: ' ' :: ("coarse_localisation_success".toList ++ '=' ::
          (if true then ['1'] else ['0']))) ++ '\n' ::
      (('#' :: ' ' :: ("bb_xmin".toList ++ '=' ::
          natToChars img.bb_xmin)) ++ '\n' ::
      (('#' :: ' ' :: ("bb_xmax".toList ++ '=' ::
          natToChars img.bb_xmax)) ++ '\n' ::
      (('#' :: ' ' :: ("bb_ymin".toList ++ '=' ::
          natToChars img.bb_ymin)) ++ '\n' ::
      (('#' :: ' ' :: ("bb_ymax".toList ++ '=' ::
          natToChars img.bb_ymax)) ++ '\n' ::
      ((natToChars img.width ++ ' ' :: (natToChars img.height ++ ' ' ::
          ['2', '5', '5'])) ++ '\n' ::
      writeRaster img))))))))) := by
    unfold writeImage
    rw [hflag]
    simp [List.append_assoc,
      (by decide : "P5\n".toList = ['P', '5', '\n']),
      (by decide : "# epochTimeUs=".toList =
        '#' :: ' ' :: ("epochTimeUs".toList ++ ['='])),
      (by decide : "# v4l2_field_index=".toList =
        '#' :: ' ' :: ("v4l2_field_index".toList ++ ['='])),
      (by decide : "# v4l2_field_name=".toList =
        '#' :: ' ' :: ("v4l2_field_name".toList ++ ['='])),
      (by decide : "# coarse_localisation_success=".toList =
        '#' :: ' ' :: ("coarse_localisation_success".toList ++ ['='])),
      (by decide : "# bb_xmin=".toList =
        '#' :: ' ' :: ("bb_xmin".toList ++ ['='])),
      (by decide : "# bb_xmax=".toList =
        '#' :: ' ' :: ("bb_xmax".toList ++ ['='])),
      (by decide : "# bb_ymin=".toList =
        '#' :: ' ' :: ("bb_ymin".toList ++ ['='])),
      (by decide : "# bb_ymax=".toList =
        '#' :: ' ' :: ("bb_ymax".toList ++ ['='])),
      (by decide : " 255\n".toList = [' ', '2', '5', '5', '\n'])]
  obtain ⟨c, t, hct, hdig⟩ := natToChars_head_digit img.width
  have hhead : ¬(((natToChars img.width ++ ' ' :: (natToChars img.height ++
      ' ' :: ['2', '5', '5'])) ++ '\n' :: writeRaster img).head? =
      some '#') := by
    rw [hct]
    simp only [List.cons_append, List.head?_cons, Option.some_inj]
    exact isDigit_ne hdig (by decide)
  rw [hs]
  rw [readImage_ok ['P', '5'] _ Image.defaultImage (by decide) (by decide)
    (by decide) _ _ (by
      rw [readHeaderLines_epoch img.epochTimeUs _ Image.defaultImage he1 he2]
      rw [readHeaderLines_fieldIndex img.field _ _ (by omega)]
      rw [readHeaderLines_fieldName img.field]
      rw [readHeaderLines_coarse true]
      rw [readHeaderLines_bbxmin img.bb_xmin _ _ (by omega)]
      rw [readHeaderLines_bbxmax img.bb_xmax _ _ (by omega)]
      rw [readHeaderLines_bbymin img.bb_ymin _ _ (by omega)]
      rw [readHeaderLines_bbymax img.bb_ymax _ _ (by omega)]
      rw [readHeaderLines_exit _ _ hhead])]
  rw [readSizeAndRaster_exact img.width img.height (writeRaster img) _ hw hh
    (by rw [writeRaster_length]; ring)]

/-- An image whose pixel vector holds more bytes than width*height: the
writer emits only width*height raster bytes, so the round trip loses the
excess pixels. -/
def cexImage : Image where
  width := 1
  height := 1
  rawImage := [0, 0]
  annotatedImage := []
  epochTimeUs := 0
  field := 0
  coarse_localisation_success := false
  bb_xmin := 0
  bb_xmax := 0
  bb_ymin := 0
  bb_ymax := 0

/-- C8 counterexample: the claim as stated is false.  `cexImage` satisfies
the claim's only hypothesis (the bounding box condition holds vacuously
since coarse localisation is not set), yet writing it and reading the
stream back into a default-constructed image does not recover the raw pixel
raster: the image holds two pixel bytes but width*height = 1, so the writer
emits one raster byte and the reader recovers a one-element raster. -/
theorem image_pgm_roundtrip_counterexample :
    (cexImage.coarse_localisation_success = true →
      cexImage.bb_xmin < cexImage.width ∧
      cexImage.bb_xmax < cexImage.width ∧
      cexImage.bb_ymin < cexImage.height ∧
      cexImage.bb_ymax < cexImage.height) ∧
    (readImage (writeImage cexImage) Image.defaultImage).rawImage ≠
      cexImage.rawImage := by
  constructor
  · intro h
    cases h
  · have hread := readImage_writeImage_false cexImage rfl (by decide)
      (by decide) (by decide) (by decide) (by decide)
    rw [hread]
    simp only [generateAnnotatedImage, Image.defaultImage]
    decide

/-- C8 (amended): for every Image whose pixel vector holds exactly
width*height byte values (each below 256), whose width and height are within
the C++ `int` range that the reader's `std::stoi` accepts, whose `field` and
bounding box members are within their `unsigned int` member type range, whose
`epochTimeUs` is within `long long`, and whose bounding box lies within the
width and height when `coarse_localisation_success` is set, writing the image
with `operator<<` and reading the stream back with `operator>>` into a
default-constructed Image recovers the width, height, epochTimeUs, field,
the coarse localisation flag, the bounding box (when the flag is set), and
the raw pixel raster exactly. -/
theorem image_pgm_roundtrip (img : Image)
    (hlen : img.rawImage.length = img.width * img.height)
    (hbytes : ∀ b ∈ img.rawImage, b < 256)
    (hw : img.width < 2 ^ 31) (hh : img.height < 2 ^ 31)
    (hf : img.field < 2 ^ 32)
    (he1 : -(2 ^ 63) ≤ img.epochTimeUs) (he2 : img.epochTimeUs < 2 ^ 63)
    (hbb : img.coarse_localisation_success = true →
      img.bb_xmin < img.width ∧ img.bb_xmax < img.width ∧
      img.bb_ymin < img.height ∧ img.bb_ymax < img.height) :
    (readImage (writeImage img) Image.defaultImage).width = img.width ∧
    (readImage (writeImage img) Image.defaultImage).height = img.height ∧
    (readImage (writeImage img) Image.defaultImage).epochTimeUs =
      img.epochTimeUs ∧
    (readImage (writeImage img) Image.defaultImage).field = img.field ∧
    (readImage (writeImage img)
      Image.defaultImage).coarse_localisation_success =
      img.coarse_localisation_success ∧
    (img.coarse_localisation_success = true →
      (readImage (writeImage img) Image.defaultImage).bb_xmin =
        img.bb_xmin ∧
      (readImage (writeImage img) Image.defaultImage).bb_xmax =
        img.bb_xmax ∧
      (readImage (writeImage img) Image.defaultImage).bb_ymin =
        img.bb_ymin ∧
      (readImage (writeImage img) Image.defaultImage).bb_ymax =
        img.bb_ymax) ∧
    (readImage (writeImage img) Image.defaultImage).rawImage =
      img.rawImage := by
  have hraster : (writeRaster img).map Char.toNat = img.rawImage :=
    raster_roundtrip img hlen hbytes
  cases hflag : img.coarse_localisation_success with
  | false =>
    have hread := readImage_writeImage_false img hflag hw hh hf he1 he2
    rw [hread]
    simp [generateAnnotatedImage, Image.defaultImage, hraster,
      Nat.mod_eq_of_lt hf, hflag]
    omega
  | true =>
    obtain ⟨hb1, hb2, hb3, hb4⟩ := hbb hflag
    have hread := readImage_writeImage_true img hflag hw hh hf he1 he2
      (by omega) (by omega) (by omega) (by omega)
    rw [hread]
    simp [generateAnnotatedImage, Image.defaultImage, hraster,
      Nat.mod_eq_of_lt hf, hflag,
      Nat.mod_eq_of_lt (by omega : img.bb_xmin < 2 ^ 32),
      Nat.mod_eq_of_lt (by omega : img.bb_xmax < 2 ^ 32),
      Nat.mod_eq_of_lt (by omega : img.bb_ymin < 2 ^ 32),
      Nat.mod_eq_of_lt (by omega : img.bb_ymax < 2 ^ 32)]
    omega

/-- A well formed one pixel image with coarse localisation results. -/
def witImage : Image where
  width := 1
  height := 1
  rawImage := [7]
  annotatedImage := []
  epochTimeUs := 42
  field := 1
  coarse_localisation_success := true
  bb_xmin := 0
  bb_xmax := 0
  bb_ymin := 0
  bb_ymax := 0

/-- Witness for the amended C8 at a concrete well formed image. -/
theorem image_pgm_roundtrip_witness :
    (witImage.rawImage.length = witImage.width * witImage.height ∧
      (∀ b ∈ witImage.rawImage, b < 256) ∧
      witImage.width < 2 ^ 31 ∧ witImage.height < 2 ^ 31 ∧
      witImage.field < 2 ^ 32 ∧
      -(2 ^ 63) ≤ witImage.epochTimeUs ∧ witImage.epochTimeUs < 2 ^ 63 ∧
      (witImage.coarse_localisation_success = true →
        witImage.bb_xmin < witImage.width ∧
        witImage.bb_xmax < witImage.width ∧
        witImage.bb_ymin < witImage.height ∧
        witImage.bb_ymax < witImage.height)) ∧
    (readImage (writeImage witImage) Image.defaultImage).width =
      witImage.width := by
  refine ⟨⟨by decide, by decide, by decide, by decide, by decide, by decide,
    by decide, by decide⟩, ?_⟩
  exact (image_pgm_roundtrip witImage (by decide) (by decide) (by decide)
    (by decide) (by decide) (by decide) (by decide) (by decide)).1
